import Mathlib

set_option maxRecDepth 8000
set_option maxHeartbeats 1000000

/-!
Shallow embedding of `src/instaudio_crawler.py`.

Modelling conventions: Python strings are `List Char`, Python ints are `ℤ`
(or `ℕ` where the source value is manifestly non-negative), Python floats are
`ℚ` (in this program floats only ever hold values parsed from decimal
literals of the form `[sign] digits [. digits]`, which `ℚ` represents
exactly), and Python dicts returned by `extract_metadata` are a structure
with `Option` fields.  Network effects are modelled by passing the outcome
of each HTTP request (`HttpStep`) to `extract_metadata` as an argument; the
HTML document is modelled as the already-parsed `Page` record (the spec
treats the markup being scraped as opaque).  All definitions are
fuel-structural, so every one of them evaluates inside the kernel.
-/

/-- Line 35 of the source: the base-36 alphabet string `CHARS`. -/
def CHARS : List Char := "0123456789abcdefghijklmnopqrstuvwxyz".toList

/-- Numeric value of a code in base 36, each digit valued by its index in
`CHARS`.  This is the "numeric value in base 36" that the spec uses to state
the generator's ordering; it is the measure against which "strictly
increasing" is formalised. -/
def codeVal (code : List Char) : ℕ :=
  code.foldl (fun acc c => 36 * acc + CHARS.indexOf c) 0

/-- Line 23: `BASE_URL`. -/
def BASE_URL : List Char := "https://instaud.io/".toList

/-- Line 25: `THREADS` (the configured concurrency limit). -/
def THREADS : ℕ := 15

/-- Line 26: `BATCH_SIZE`.  The batching model below takes the batch size as
a parameter `B`; the source instantiates it with this constant. -/
def BATCH_SIZE : ℕ := 500

/-- Lines 37-38: `code_to_url`. -/
def code_to_url (code : List Char) : List Char := BASE_URL ++ code

/-- Python `str.strip()` with default whitespace, as used on line 43 and
inside `float(...)` (Python's float parser strips surrounding whitespace). -/
def pyStrip (l : List Char) : List Char :=
  ((l.dropWhile Char.isWhitespace).reverse.dropWhile Char.isWhitespace).reverse

/-- Python `str.split(sep)` for a one-character separator, as used on
line 43 (`text.strip().split(':')`) and line 91 (`url.split('/')`).
Splits at every occurrence of `sep`, keeping empty pieces, and returns
`[l]` when `sep` does not occur. -/
def pySplit (sep : Char) : List Char → List (List Char)
  | [] => [[]]
  | c :: rest =>
      if c = sep then [] :: pySplit sep rest
      else
        match pySplit sep rest with
        | [] => [c :: []]
        | p :: ps => (c :: p) :: ps

/-- Decimal value of a digit string (what Python's float parser assigns to a
run of digit characters). -/
def digitsVal (l : List Char) : ℕ :=
  l.foldl (fun acc c => 10 * acc + (c.toNat - 48)) 0

/-- Sign handling of Python's `float(...)` literal parser: an optional
leading `-` or `+`. -/
def splitSign : List Char → ℚ × List Char
  | [] => ((1 : ℚ), [])
  | c :: rest =>
      if c = '-' then ((-1 : ℚ), rest)
      else if c = '+' then ((1 : ℚ), rest)
      else ((1 : ℚ), c :: rest)

/-- Python `float(s)` as used on lines 46 and 49, modelled on the decimal
literal grammar `[ws] [sign] (digits [. digits] | . digits) [ws]` — the only
float syntax this program's inputs (time markers such as `1:02:03`) exercise.
Returns `none` when the text is not such a literal (Python raises
`ValueError`, which line 51's `except` turns into the result `0`). -/
def parseFloat (s : List Char) : Option ℚ :=
  let t := pyStrip s
  let sc := splitSign t
  let intPart := sc.2.takeWhile Char.isDigit
  let rest := sc.2.dropWhile Char.isDigit
  match rest with
  | [] => if intPart = [] then none else some (sc.1 * (digitsVal intPart : ℚ))
  | '.' :: frac =>
      if frac.all Char.isDigit ∧ (intPart ≠ [] ∨ frac ≠ []) then
        some (sc.1 * ((digitsVal intPart : ℚ) + (digitsVal frac : ℚ) / (10 : ℚ) ^ frac.length))
      else none
  | _ => none

/-- Python `int(x)` on a float: truncation toward zero. -/
def pyInt (q : ℚ) : ℤ := if q < 0 then -(-q).floor else q.floor

/-- Lines 40-52: `parse_duration`.  `if not text or ':' not in text: return 0`;
split the stripped text on `':'`; three parts are read as H:MM:SS, exactly
two as M:SS; any other arity or any `float` failure hits the `except` and
returns 0. -/
def parse_duration (text : List Char) : ℤ :=
  if text = [] ∨ ':' ∉ text then 0
  else
    match pySplit ':' (pyStrip text) with
    | [p1, p2, p3] =>
        match parseFloat p1, parseFloat p2, parseFloat p3 with
        | some h', some m', some s' => pyInt (h' * 3600 + m' * 60 + s')
        | _, _, _ => 0
    | [p1, p2] =>
        match parseFloat p1, parseFloat p2 with
        | some m', some s' => pyInt (m' * 60 + s')
        | _, _ => 0
    | _ => 0

/-- The ten decimal digit characters. -/
def digitsList : List Char := "0123456789".toList

/-- The character for a decimal digit (argument is always < 10 where used). -/
def digitChar (d : ℕ) : Char := digitsList.getD d '0'

/-- Decimal rendering of a natural number, as produced by Python's `d`
format code (fuel-structural so it evaluates in the kernel; the fuel
`n + 1` always suffices since the argument drops by a factor of 10). -/
def natDigitsAux : ℕ → ℕ → List Char
  | 0, _ => []
  | fuel + 1, n =>
      if n < 10 then [digitChar n]
      else natDigitsAux fuel (n / 10) ++ [digitChar (n % 10)]

/-- Decimal digits of `n` (e.g. `natDigits 62 = "62"`). -/
def natDigits (n : ℕ) : List Char := natDigitsAux (n + 1) n

/-- Python `f"{n:02d}"` for a non-negative value: zero-pad to width 2. -/
def pad2 (n : ℕ) : List Char :=
  if n < 10 then '0' :: natDigits n else natDigits n

/-- Python `f"{z:02d}"` for any int: a negative value prints `-` followed by
its digits (already at least width 2, so no padding is added). -/
def pad2Z (z : ℤ) : List Char :=
  if z < 0 then '-' :: natDigits (-z).toNat else pad2 z.toNat

/-- Line 75: `f"{duration_sec // 60:02d}:{duration_sec % 60:02d}" if
duration_sec else "?:??"`.  Python `//` and `%` on ints are floor division
and floor modulus, i.e. `Int.fdiv` / `Int.fmod`; `if duration_sec` is the
truthiness test `duration_sec ≠ 0`. -/
def duration_fmt (sec : ℤ) : List Char :=
  if sec ≠ 0 then pad2Z (Int.fdiv sec 60) ++ ':' :: pad2Z (Int.fmod sec 60)
  else ['?', ':', '?', '?']

/-- Python `str.replace(pat, '')` (line 69): remove every occurrence of
`pat`, scanning left to right, non-overlapping.  Fuel-structural; each step
consumes at least one character, so `l.length` fuel suffices. -/
def replaceAllAux (pat : List Char) : ℕ → List Char → List Char
  | 0, l => l
  | _ + 1, [] => []
  | fuel + 1, c :: rest =>
      if pat ≠ [] ∧ (c :: rest).take pat.length = pat then
        replaceAllAux pat fuel ((c :: rest).drop pat.length)
      else c :: replaceAllAux pat fuel rest

/-- Python `l.replace(pat, '')`. -/
def replaceAll (pat l : List Char) : List Char := replaceAllAux pat l.length l

/-- The literal `' - Instaudio'` removed from titles on line 69. -/
def instaudioSuffix : List Char := " - Instaudio".toList

/-- The literal `"Unknown"` used as the default title on line 69. -/
def unknownStr : List Char := "Unknown".toList

/-- Status field of a probe result: an HTTP status code (int) in the
found/not-found cases, the string `"ERROR"` in the exception case. -/
inductive RStatus
  | code (n : ℕ)
  | error
deriving DecidableEq

/-- The dict returned by `extract_metadata` (lines 54-100).  Keys that a
given return path does not set are `none`; `save_results` later defaults
the missing `error` key to the empty string. -/
structure ResultRow where
  url : List Char
  code : Option (List Char)
  title : Option (List Char)
  duration : Option (List Char)
  duration_seconds : Option ℤ
  listens : Option (List Char)
  downloads : Option (List Char)
  status : RStatus
  error : Option (List Char)
deriving DecidableEq

/-- The parsed HTML document, as seen through the BeautifulSoup calls of
lines 65-87.  `titleTag` is `soup.find('title').get_text(strip=True)` when a
title element exists; `timeTag` likewise for the `<time>` element;
`listens`/`downloads` are the values the regex scan of lines 79-87 yields
(the spec treats the markup extraction rules as an opaque collaborator, and
no claim concerns them, so they are carried as given attributes with the
same `"0"` defaults as the source). -/
structure Page where
  titleTag : Option (List Char)
  timeTag : Option (List Char)
  listens : List Char
  downloads : List Char
deriving DecidableEq

/-- Outcome of one `requests.head`/`requests.get` call: a response with a
status code and (parsed) body, or a raised exception carrying `str(e)`.
Timeouts, connection failures and malformed responses are all the `exn`
case — they surface in Python as exceptions caught on line 99. -/
inductive HttpStep
  | resp (status : ℕ) (body : Page)
  | exn (msg : List Char)
deriving DecidableEq

/-- Line 91: `url.split('/')[-1]` (`pySplit` never returns `[]`, so the
`[-1]` index is total). -/
def urlLastSegment (url : List Char) : List Char := (pySplit '/' url).getLastD []

/-- Lines 54-100: `extract_metadata`.  The two network calls are passed in
as outcomes; every exception raised inside the `try` (modelled at the two
request sites) is caught by line 99 and becomes an `"ERROR"` row whose
`error` field is `str(e)[:100]`. -/
def extract_metadata (url : List Char) (headStep getStep : HttpStep) : ResultRow :=
  match headStep with
  | HttpStep.exn msg =>
      { url := url, code := none, title := none, duration := none,
        duration_seconds := none, listens := none, downloads := none,
        status := RStatus.error, error := some (msg.take 100) }
  | HttpStep.resp hstatus _ =>
      if hstatus ≠ 200 then
        { url := url, code := none, title := none, duration := none,
          duration_seconds := none, listens := none, downloads := none,
          status := RStatus.code hstatus, error := none }
      else
        match getStep with
        | HttpStep.exn msg =>
            { url := url, code := none, title := none, duration := none,
              duration_seconds := none, listens := none, downloads := none,
              status := RStatus.error, error := some (msg.take 100) }
        | HttpStep.resp gstatus body =>
            if gstatus ≠ 200 then
              { url := url, code := none, title := none, duration := none,
                duration_seconds := none, listens := none, downloads := none,
                status := RStatus.code gstatus, error := none }
            else
              let title_text :=
                match body.titleTag with
                | some t => pyStrip (replaceAll instaudioSuffix t)
                | none => unknownStr
              let duration_sec := parse_duration (body.timeTag.getD [])
              { url := url, code := some (urlLastSegment url),
                title := some title_text,
                duration := some (duration_fmt duration_sec),
                duration_seconds := some duration_sec,
                listens := some body.listens, downloads := some body.downloads,
                status := RStatus.code 200, error := none }

/-- Lines 102-107, inner product: `itertools.product(CHARS, repeat=3)`
rendered as codes, before the `continue` filter. -/
def product3 : List (List Char) :=
  CHARS.flatMap fun a => CHARS.flatMap fun b => CHARS.map fun c => [a, b, c]

/-- Lines 102-107: `generate_3digit_codes` — every 3-character product of
`CHARS` with the placeholder `"000"` skipped. -/
def generate_3digit_codes : List (List Char) :=
  product3.filter fun code => code ≠ ['0', '0', '0']

/-- Lines 119-123, the inner loop of `generate_4digit_codes`: build a
4-character base-36 rendering of `num` by four rounds of
`code = CHARS[n % 36] + code; n //= 36` (the index is always < 36, so the
`getD` default is never consulted). -/
def toCode4Aux : ℕ → ℕ → List Char → List Char
  | 0, _, code => code
  | k + 1, n, code => toCode4Aux k (n / 36) (CHARS.getD (n % 36) '0' :: code)

/-- The 4-character base-36 rendering built by lines 119-123. -/
def toCode4 (num : ℕ) : List Char := toCode4Aux 4 num []

/-- Lines 109-125: `generate_4digit_codes`.  For `first` in `'123'`: start
at 0 when `first == '1'`, else at `CHARS.index(first) * 36 ** 3`; iterate
`range(start, start + 36 ** 3)`, breaking when `first == '3'` and
`num >= 36 ** 4` (the `break` is the `takeWhile`); yield the rendered code
when it is non-empty and its first character equals `first`. -/
def generate_4digit_codes : List (List Char) :=
  (['1', '2', '3'] : List Char).flatMap fun first =>
    ((List.range' (if first = '1' then 0 else CHARS.indexOf first * 36 ^ 3)
        (36 ^ 3)).takeWhile fun num =>
          decide (¬ (first = '3' ∧ 36 ^ 4 ≤ num))).filterMap fun num =>
      let code := toCode4 num
      if code ≠ [] ∧ code.headD '0' = first then some code else none

/-- Process-wide mutable state of `main` that the claims are about:
`batch_results` (created once, line 146) and the sequence of row blocks
written by successive `save_results` calls (`saved`; each entry is the
argument of one call, line 178 or 189).  Results are opaque to the batching
logic, hence the type parameter. -/
structure LoopState (R : Type) where
  batch_results : List R
  saved : List (List R)
deriving DecidableEq

/-- Lines 158-181, one iteration of `for code in gen`: append the code's URL
to `urls_batch`; once `len(urls_batch) >= BATCH_SIZE`, probe the whole
batch (results are appended to `batch_results` as they complete — completion
order is modelled as submission order, which no claim depends on), call
`save_results(batch_results)`, then clear both lists. -/
def stepCode {R : Type} (B : ℕ) (probe : List Char → R)
    (st : List (List Char) × LoopState R) (code : List Char) :
    List (List Char) × LoopState R :=
  let urls' := st.1 ++ [code]
  if B ≤ urls'.length then
    ([], { batch_results := [],
           saved := st.2.saved ++ [st.2.batch_results ++ urls'.map probe] })
  else (urls', st.2)

/-- Lines 153-192, one generator's scan: run the per-code loop starting from
an empty `urls_batch` (line 156), then the final-batch block of lines
184-192 — probe the leftover URLs, append their results to `batch_results`,
call `save_results(batch_results)`, and (as in the source) do NOT clear
`batch_results`. -/
def scanGen {R : Type} (B : ℕ) (probe : List Char → R)
    (s : LoopState R) (codes : List (List Char)) : LoopState R :=
  let res := codes.foldl (stepCode B probe) ([], s)
  if res.1 ≠ [] then
    { batch_results := res.2.batch_results ++ res.1.map probe,
      saved := res.2.saved ++ [res.2.batch_results ++ res.1.map probe] }
  else res.2

/-- Lines 138-198: `main` over its list of generators (lines 148-151), with
`batch_results` initialised once and threaded through every scan. -/
def mainRun {R : Type} (B : ℕ) (probe : List Char → R)
    (gens : List (List (List Char))) : LoopState R :=
  gens.foldl (scanGen B probe) { batch_results := [], saved := [] }

/-- Lines 200-205: the `KeyboardInterrupt` handler prints a message and
calls `sys.exit(0)`; it performs no `save_results` call, so the state (in
particular the rows already on disk, `saved`) is returned unchanged. -/
def keyboard_interrupt_handler {R : Type} (s : LoopState R) : LoopState R := s

/-- State at the moment an operator interrupt strikes mid-batch: `pend` is
the list of results that have already completed their probe and been
appended to `batch_results` by line 175, while the batch is still being
processed (so line 178's save has not yet run). -/
def interruptState {R : Type} (s : LoopState R) (pend : List R) : LoopState R :=
  { s with batch_results := s.batch_results ++ pend }

/-- The row blocks on disk after an interrupt that strikes mid-batch: the
handler runs and the process exits. -/
def fileRowsAtInterrupt {R : Type} (s : LoopState R) (pend : List R) :
    List (List R) :=
  (keyboard_interrupt_handler (interruptState s pend)).saved

/-- Modelled from the spec (claim C9's wording), for comparison against the
code: "the document's title text with the fixed trailing site-name suffix
removed and surrounding whitespace trimmed; empty or absent ⇒ Unknown".
Removes `pat` only when it is a trailing suffix. -/
def dropTrailingSuffix (pat l : List Char) : List Char :=
  if pat.isSuffixOf l then l.take (l.length - pat.length) else l

/-- Modelled from the spec (claim C9's wording): the title rule the claim
asserts, to be compared with what `extract_metadata` computes. -/
def specTitleRule (t : Option (List Char)) : List Char :=
  match t with
  | none => unknownStr
  | some s => if s = [] then unknownStr
              else pyStrip (dropTrailingSuffix instaudioSuffix s)

/-- Modelled from the spec (claim C7's wording): the text parses as
`H:MM:SS` or `MM:SS` — the stripped text splits on `':'` into exactly three
or exactly two float-parsable components.  Mirrors the successful control
paths of `parse_duration`. -/
def wellFormedDuration (text : List Char) : Bool :=
  if text = [] ∨ ':' ∉ text then false
  else
    match pySplit ':' (pyStrip text) with
    | [p1, p2, p3] =>
        (parseFloat p1).isSome && (parseFloat p2).isSome && (parseFloat p3).isSome
    | [p1, p2] => (parseFloat p1).isSome && (parseFloat p2).isSome
    | _ => false

/-! Generic list helpers used throughout. -/

theorem takeWhile_eq_self_of_forall {α : Type} (p : α → Bool) :
    ∀ l : List α, (∀ a ∈ l, p a = true) → l.takeWhile p = l := by
  intro l
  induction l with
  | nil => intro _; rfl
  | cons a t ih =>
    intro h
    rw [List.takeWhile_cons, h a (List.mem_cons_self a t)]
    simp [ih fun x hx => h x (List.mem_cons_of_mem a hx)]

theorem dropWhile_eq_self_of_forall {α : Type} (p : α → Bool) :
    ∀ l : List α, (∀ a ∈ l, p a = false) → l.dropWhile p = l := by
  intro l
  induction l with
  | nil => intro _; rfl
  | cons a t _ =>
    intro h
    rw [List.dropWhile_cons, h a (List.mem_cons_self a t)]
    simp

theorem dropWhile_eq_nil_of_forall {α : Type} (p : α → Bool) :
    ∀ l : List α, (∀ a ∈ l, p a = true) → l.dropWhile p = [] := by
  intro l
  induction l with
  | nil => intro _; rfl
  | cons a t ih =>
    intro h
    rw [List.dropWhile_cons, h a (List.mem_cons_self a t)]
    simp [ih fun x hx => h x (List.mem_cons_of_mem a hx)]

theorem filterMap_eq_nil_of_forall {α β : Type} (f : α → Option β) :
    ∀ l : List α, (∀ a ∈ l, f a = none) → l.filterMap f = [] := by
  intro l
  induction l with
  | nil => intro _; rfl
  | cons a t ih =>
    intro h
    rw [List.filterMap_cons, h a (List.mem_cons_self a t)]
    exact ih fun x hx => h x (List.mem_cons_of_mem a hx)

theorem filterMap_eq_map_of_forall {α β : Type} (f : α → Option β) (g : α → β) :
    ∀ l : List α, (∀ a ∈ l, f a = some (g a)) → l.filterMap f = l.map g := by
  intro l
  induction l with
  | nil => intro _; rfl
  | cons a t ih =>
    intro h
    rw [List.filterMap_cons, h a (List.mem_cons_self a t), List.map_cons]
    rw [ih fun x hx => h x (List.mem_cons_of_mem a hx)]

/-! Lemmas about the identifier generators (claim C1). -/

theorem chars_map_indexOf : CHARS.map (fun c => CHARS.indexOf c) = List.range 36 := by
  decide

theorem codeVal_triple (a b c : Char) :
    codeVal [a, b, c] = 1296 * CHARS.indexOf a + 36 * CHARS.indexOf b + CHARS.indexOf c := by
  simp [codeVal]
  ring

theorem chars_map_add (base : ℕ) :
    CHARS.map (fun c => base + CHARS.indexOf c) = List.range' base 36 := by
  have h1 : CHARS.map (fun c => base + CHARS.indexOf c)
      = (CHARS.map fun c => CHARS.indexOf c).map (fun i => base + i) := by
    rw [List.map_map]
    rfl
  rw [h1, chars_map_indexOf, List.range'_eq_map_range]

theorem range_flatMap_range' (n : ℕ) :
    ∀ m base : ℕ,
      (List.range m).flatMap (fun j => List.range' (base + n * j) n) = List.range' base (n * m) := by
  intro m
  induction m with
  | zero => intro base; simp
  | succ m ih =>
    intro base
    rw [List.range_succ, List.flatMap_append, ih]
    simp only [List.flatMap_cons, List.flatMap_nil, List.append_nil]
    rw [List.range'_append_1 base (n * m) n]
    congr 1
    ring

theorem chars_flatMap_range36 (base : ℕ) :
    (CHARS.flatMap fun b => List.range' (base + 36 * CHARS.indexOf b) 36)
      = List.range' base 1296 := by
  have h1 : (CHARS.flatMap fun b => List.range' (base + 36 * CHARS.indexOf b) 36)
      = (CHARS.map fun b => CHARS.indexOf b).flatMap fun j => List.range' (base + 36 * j) 36 := by
    rw [List.flatMap_map]
  rw [h1, chars_map_indexOf, range_flatMap_range' 36 36 base]

theorem chars_flatMap_range1296 :
    (CHARS.flatMap fun a => List.range' (1296 * CHARS.indexOf a) 1296)
      = List.range' 0 46656 := by
  have h1 : (CHARS.flatMap fun a => List.range' (1296 * CHARS.indexOf a) 1296)
      = (CHARS.map fun a => CHARS.indexOf a).flatMap fun j => List.range' (0 + 1296 * j) 1296 := by
    rw [List.flatMap_map]
    simp
  rw [h1, chars_map_indexOf, range_flatMap_range' 1296 36 0]

theorem product3_map_val : product3.map codeVal = List.range 46656 := by
  rw [product3, List.map_flatMap]
  simp only [List.map_flatMap, List.map_map, Function.comp_def, codeVal_triple]
  simp only [chars_map_add, chars_flatMap_range36, chars_flatMap_range1296]
  rw [List.range_eq_range']

theorem filter_ne_map_comm {α : Type} [DecidableEq α] (f : α → ℕ) :
    ∀ (l : List α) (z : α), (l.map f).Nodup → z ∈ l →
      (l.filter fun x => x ≠ z).map f = (l.map f).filter fun v => v ≠ f z := by
  intro l
  induction l with
  | nil => intro z _ hz; cases hz
  | cons a t ih =>
    intro z hnd hz
    rw [List.map_cons] at hnd
    rcases List.nodup_cons.mp hnd with ⟨hfa, hnd'⟩
    by_cases haz : a = z
    · subst haz
      have h1 : t.filter (fun x => x ≠ a) = t := by
        rw [List.filter_eq_self]
        intro x hx
        simp only [ne_eq, decide_eq_true_eq]
        intro hxa
        exact hfa (hxa ▸ List.mem_map_of_mem f hx)
      have h2 : ((a :: t).map f).filter (fun v => v ≠ f a) = (t.map f).filter fun v => v ≠ f a := by
        rw [List.map_cons, List.filter_cons_of_neg (by simp)]
      have h3 : (t.map f).filter (fun v => v ≠ f a) = t.map f := by
        rw [List.filter_eq_self]
        intro v hv
        rcases List.mem_map.mp hv with ⟨x, hx, rfl⟩
        simp only [ne_eq, decide_eq_true_eq]
        intro hfx
        exact hfa (hfx ▸ List.mem_map_of_mem f hx)
      rw [h2, h3, List.filter_cons_of_neg (by simp), h1]
    · have hzt : z ∈ t := by
        rcases List.mem_cons.mp hz with h | h
        · exact absurd h.symm haz
        · exact h
      have hfaz : f a ≠ f z := fun h => hfa (h ▸ List.mem_map_of_mem f hzt)
      rw [List.map_cons, List.filter_cons_of_pos (by simpa using haz),
        List.filter_cons_of_pos (by simpa using hfaz), List.map_cons,
        ih z hnd' hzt]

theorem gen3_map_val :
    generate_3digit_codes.map codeVal = (List.range 46656).filter fun v => v ≠ 0 := by
  have hnd : (product3.map codeVal).Nodup := by
    rw [product3_map_val]
    exact List.nodup_range 46656
  have hz : (['0', '0', '0'] : List Char) ∈ product3 := by decide
  have hc : codeVal ['0', '0', '0'] = 0 := by decide
  have h := filter_ne_map_comm codeVal product3 ['0', '0', '0'] hnd hz
  rw [hc] at h
  rw [generate_3digit_codes, h, product3_map_val]

theorem range_filter_ne_zero (n : ℕ) :
    ((List.range (n + 1)).filter fun v => v ≠ 0) = (List.range n).map Nat.succ := by
  rw [List.range_succ_eq_map, List.filter_cons_of_neg (by simp)]
  exact List.filter_eq_self.mpr fun v hv => by
    rcases List.mem_map.mp hv with ⟨x, _, rfl⟩
    simp

theorem gen3_length : generate_3digit_codes.length = 46655 := by
  have h : (generate_3digit_codes.map codeVal).length = 46655 := by
    rw [gen3_map_val, show (46656 : ℕ) = 46655 + 1 from rfl, range_filter_ne_zero,
      List.length_map, List.length_range]
  rw [List.length_map] at h
  exact h

theorem gen3_nodup : generate_3digit_codes.Nodup := by
  apply List.Nodup.of_map codeVal
  rw [gen3_map_val]
  exact (List.nodup_range 46656).filter _

theorem gen3_sorted :
    List.Pairwise (fun x y => codeVal x < codeVal y) generate_3digit_codes := by
  apply List.pairwise_map.mp
  rw [gen3_map_val]
  apply List.Pairwise.filter
  rw [List.range_eq_range']
  exact List.pairwise_lt_range' 0 46656

theorem toCode4_eq (n : ℕ) :
    toCode4 n = [CHARS.getD (n / 36 / 36 / 36 % 36) '0', CHARS.getD (n / 36 / 36 % 36) '0',
      CHARS.getD (n / 36 % 36) '0', CHARS.getD (n % 36) '0'] := by
  rfl

theorem indexOf_getD (i : ℕ) (h : i < 36) : CHARS.indexOf (CHARS.getD i '0') = i := by
  revert h
  revert i
  decide

theorem codeVal_toCode4 (n : ℕ) (h : n < 1679616) : codeVal (toCode4 n) = n := by
  rw [toCode4_eq]
  simp only [codeVal, List.foldl]
  rw [indexOf_getD _ (Nat.mod_lt _ (by norm_num)), indexOf_getD _ (Nat.mod_lt _ (by norm_num)),
    indexOf_getD _ (Nat.mod_lt _ (by norm_num)), indexOf_getD _ (Nat.mod_lt _ (by norm_num))]
  omega

theorem gen4_eq :
    generate_4digit_codes
      = (List.range' 93312 46656).map toCode4 ++ (List.range' 139968 46656).map toCode4 := by
  rw [generate_4digit_codes]
  rw [List.flatMap_cons, List.flatMap_cons, List.flatMap_cons, List.flatMap_nil,
    List.append_nil]
  have e1 : (if ('1' : Char) = '1' then 0 else CHARS.indexOf '1' * 36 ^ 3) = 0 := by decide
  have e2 : (if ('2' : Char) = '1' then 0 else CHARS.indexOf '2' * 36 ^ 3) = 93312 := by decide
  have e3 : (if ('3' : Char) = '1' then 0 else CHARS.indexOf '3' * 36 ^ 3) = 139968 := by decide
  rw [e1, e2, e3]
  have hp : (36 : ℕ) ^ 3 = 46656 := by norm_num
  rw [hp]
  have ht1 : (List.range' 0 46656).takeWhile
      (fun num => decide (¬ (('1' : Char) = '3' ∧ 36 ^ 4 ≤ num))) = List.range' 0 46656 := by
    apply takeWhile_eq_self_of_forall
    intro a _
    simp only [decide_eq_true_eq]
    rintro ⟨hc, _⟩
    exact absurd hc (by decide)
  have ht2 : (List.range' 93312 46656).takeWhile
      (fun num => decide (¬ (('2' : Char) = '3' ∧ 36 ^ 4 ≤ num))) = List.range' 93312 46656 := by
    apply takeWhile_eq_self_of_forall
    intro a _
    simp only [decide_eq_true_eq]
    rintro ⟨hc, _⟩
    exact absurd hc (by decide)
  have ht3 : (List.range' 139968 46656).takeWhile
      (fun num => decide (¬ (('3' : Char) = '3' ∧ 36 ^ 4 ≤ num))) = List.range' 139968 46656 := by
    apply takeWhile_eq_self_of_forall
    intro a ha
    rcases List.mem_range'_1.mp ha with ⟨_, hlt⟩
    simp only [decide_eq_true_eq]
    rintro ⟨_, habs⟩
    have : (36 : ℕ) ^ 4 = 1679616 := by norm_num
    omega
  rw [ht1, ht2, ht3]
  have hb1 : (List.range' 0 46656).filterMap (fun num =>
      if toCode4 num ≠ [] ∧ (toCode4 num).headD '0' = '1' then some (toCode4 num) else none)
      = [] := by
    apply filterMap_eq_nil_of_forall
    intro num hnum
    rcases List.mem_range'_1.mp hnum with ⟨_, hlt⟩
    rw [if_neg]
    rintro ⟨_, hhead⟩
    rw [toCode4_eq] at hhead
    simp only [List.headD_cons] at hhead
    have hdiv : num / 36 / 36 / 36 = 0 := by omega
    rw [hdiv] at hhead
    exact absurd hhead (by decide)
  have hb2 : (List.range' 93312 46656).filterMap (fun num =>
      if toCode4 num ≠ [] ∧ (toCode4 num).headD '0' = '2' then some (toCode4 num) else none)
      = (List.range' 93312 46656).map toCode4 := by
    apply filterMap_eq_map_of_forall
    intro num hnum
    rcases List.mem_range'_1.mp hnum with ⟨hge, hlt⟩
    rw [if_pos]
    constructor
    · rw [toCode4_eq]
      exact List.cons_ne_nil _ _
    · rw [toCode4_eq]
      simp only [List.headD_cons]
      have hdiv : num / 36 / 36 / 36 = 2 := by omega
      rw [hdiv]
      decide
  have hb3 : (List.range' 139968 46656).filterMap (fun num =>
      if toCode4 num ≠ [] ∧ (toCode4 num).headD '0' = '3' then some (toCode4 num) else none)
      = (List.range' 139968 46656).map toCode4 := by
    apply filterMap_eq_map_of_forall
    intro num hnum
    rcases List.mem_range'_1.mp hnum with ⟨hge, hlt⟩
    rw [if_pos]
    constructor
    · rw [toCode4_eq]
      exact List.cons_ne_nil _ _
    · rw [toCode4_eq]
      simp only [List.headD_cons]
      have hdiv : num / 36 / 36 / 36 = 3 := by omega
      rw [hdiv]
      decide
  rw [hb1, hb2, hb3, List.nil_append]

theorem gen4_map_val : generate_4digit_codes.map codeVal = List.range' 93312 93312 := by
  rw [gen4_eq, List.map_append, List.map_map, List.map_map]
  have h2 : (List.range' 93312 46656).map (codeVal ∘ toCode4) = List.range' 93312 46656 := by
    rw [List.map_congr_left, List.map_id]
    intro n hn
    rcases List.mem_range'_1.mp hn with ⟨_, hlt⟩
    exact codeVal_toCode4 n (by omega)
  have h3 : (List.range' 139968 46656).map (codeVal ∘ toCode4) = List.range' 139968 46656 := by
    rw [List.map_congr_left, List.map_id]
    intro n hn
    rcases List.mem_range'_1.mp hn with ⟨_, hlt⟩
    exact codeVal_toCode4 n (by omega)
  rw [h2, h3]
  have := List.range'_append_1 93312 46656 46656
  rw [show (93312 : ℕ) + 46656 = 139968 from rfl] at this
  rw [this]

theorem gen4_length : generate_4digit_codes.length = 93312 := by
  have h : (generate_4digit_codes.map codeVal).length = 93312 := by
    rw [gen4_map_val, List.length_range']
  rw [List.length_map] at h
  exact h

theorem gen4_nodup : generate_4digit_codes.Nodup := by
  apply List.Nodup.of_map codeVal
  rw [gen4_map_val]
  exact List.nodup_range' 93312 93312

theorem gen4_sorted :
    List.Pairwise (fun x y => codeVal x < codeVal y) generate_4digit_codes := by
  apply List.pairwise_map.mp
  rw [gen4_map_val]
  exact List.pairwise_lt_range' 93312 93312

/-- Claim C1 (corrected).  For L = 3 the generator emits exactly
`36 ^ 3 - 1` identifiers (all length-3 codes except the reserved all-zero
code `"000"`), each exactly once, in strictly increasing base-36 numeric
order.  For L = 4 the generator does NOT cover the length-4 space: it emits
exactly the `2 * 36 ^ 3` identifiers whose base-36 values run from
`codeVal "2000" = 93312` up to `codeVal "3zzz" = 186623` (the intended
`1xxx` block is silently dropped by the `code[0] == first` filter, because
for `first == '1'` the loop iterates `range(0, 36 ** 3)` whose renderings
all start with `'0'`), each exactly once, in strictly increasing base-36
numeric order. -/
theorem claim_C1_theorem :
    generate_3digit_codes.length = 36 ^ 3 - 1 ∧
    generate_3digit_codes.Nodup ∧
    List.Pairwise (fun x y => codeVal x < codeVal y) generate_3digit_codes ∧
    generate_3digit_codes.map codeVal = (List.range (36 ^ 3)).filter (fun v => v ≠ 0) ∧
    generate_4digit_codes.length = 2 * 36 ^ 3 ∧
    generate_4digit_codes.Nodup ∧
    List.Pairwise (fun x y => codeVal x < codeVal y) generate_4digit_codes ∧
    generate_4digit_codes.map codeVal = List.range' 93312 93312 := by
  refine ⟨?_, gen3_nodup, gen3_sorted, ?_, ?_, gen4_nodup, gen4_sorted, gen4_map_val⟩
  · rw [gen3_length]
    norm_num
  · rw [gen3_map_val]
    norm_num
  · rw [gen4_length]
    norm_num

/-- Claim C1 (counterexample to the claim as stated).  With length 4
configured, the generator emits 93312 identifiers — neither `36 ^ 4` nor
`36 ^ 4 - 1` (the count allowing a single reserved exclusion such as the
all-zero code), so it does not emit "exactly 36^L identifiers (minus any
explicitly reserved exclusions)" for L = 4. -/
theorem claim_C1_counterexample :
    generate_4digit_codes.length = 93312 ∧
    generate_4digit_codes.length ≠ 36 ^ 4 ∧
    generate_4digit_codes.length ≠ 36 ^ 4 - 1 := by
  refine ⟨gen4_length, ?_, ?_⟩ <;> rw [gen4_length] <;> norm_num

/-! Lemmas about decimal digit rendering (`natDigits`, `pad2`, `pad2Z`),
which back the duration formatting claims C8 and C10. -/

theorem digitChar_mem (d : ℕ) : digitChar d ∈ digitsList := by
  rw [digitChar]
  rcases Nat.lt_or_ge d 10 with h | h
  · interval_cases d <;> decide
  · rw [List.getD_eq_default]
    · decide
    · simpa [digitsList] using h

theorem digits_props :
    ∀ c ∈ digitsList, c.isDigit = true ∧ c.isWhitespace = false ∧
      c ≠ ':' ∧ c ≠ '-' ∧ c ≠ '+' ∧ c ≠ '?' ∧ c ≠ '.' := by
  decide

theorem digitChar_val (d : ℕ) (h : d < 10) : (digitChar d).toNat - 48 = d := by
  revert h
  revert d
  decide

theorem natDigitsAux_eq :
    ∀ fuel1 : ℕ, ∀ fuel2 n : ℕ, n < fuel1 → n < fuel2 →
      natDigitsAux fuel1 n = natDigitsAux fuel2 n := by
  intro fuel1
  induction fuel1 with
  | zero => intro fuel2 n h1 _; omega
  | succ f ih =>
    intro fuel2 n h1 h2
    cases fuel2 with
    | zero => omega
    | succ f2 =>
      rw [natDigitsAux, natDigitsAux]
      by_cases h10 : n < 10
      · rw [if_pos h10, if_pos h10]
      · rw [if_neg h10, if_neg h10, ih f2 (n / 10) (by omega) (by omega)]

theorem natDigits_lt10 (n : ℕ) (h : n < 10) : natDigits n = [digitChar n] := by
  rw [natDigits, natDigitsAux, if_pos h]

theorem natDigits_ge10 (n : ℕ) (h : 10 ≤ n) :
    natDigits n = natDigits (n / 10) ++ [digitChar (n % 10)] := by
  rw [natDigits, natDigitsAux, if_neg (by omega)]
  congr 1
  exact natDigitsAux_eq n (n / 10 + 1) (n / 10) (by omega) (by omega)

theorem natDigits_ne_nil (n : ℕ) : natDigits n ≠ [] := by
  rcases Nat.lt_or_ge n 10 with h | h
  · rw [natDigits_lt10 n h]
    exact List.cons_ne_nil _ _
  · rw [natDigits_ge10 n h]
    simp

theorem natDigits_mem (n : ℕ) : ∀ c ∈ natDigits n, c ∈ digitsList := by
  induction n using Nat.strong_induction_on with
  | _ n ih =>
    rcases Nat.lt_or_ge n 10 with h | h
    · rw [natDigits_lt10 n h]
      intro c hc
      rw [List.mem_singleton] at hc
      exact hc ▸ digitChar_mem n
    · rw [natDigits_ge10 n h]
      intro c hc
      rcases List.mem_append.mp hc with hc | hc
      · exact ih (n / 10) (by omega) c hc
      · rw [List.mem_singleton] at hc
        exact hc ▸ digitChar_mem (n % 10)

theorem digitsVal_append_last (l : List Char) (c : Char) :
    digitsVal (l ++ [c]) = 10 * digitsVal l + (c.toNat - 48) := by
  rw [digitsVal, List.foldl_append]
  rfl

theorem digitsVal_natDigits (n : ℕ) : digitsVal (natDigits n) = n := by
  induction n using Nat.strong_induction_on with
  | _ n ih =>
    rcases Nat.lt_or_ge n 10 with h | h
    · rw [natDigits_lt10 n h]
      have hv := digitChar_val n h
      simp [digitsVal, List.foldl, hv]
    · rw [natDigits_ge10 n h, digitsVal_append_last, ih (n / 10) (by omega),
        digitChar_val _ (Nat.mod_lt _ (by norm_num))]
      omega

theorem natDigits_len1 (n : ℕ) (h : n < 10) : (natDigits n).length = 1 := by
  rw [natDigits_lt10 n h]
  rfl

theorem natDigits_len_ge2 (n : ℕ) (h : 10 ≤ n) : 2 ≤ (natDigits n).length := by
  rw [natDigits_ge10 n h, List.length_append]
  have h1 : 0 < (natDigits (n / 10)).length := List.length_pos.mpr (natDigits_ne_nil _)
  simp only [List.length_singleton]
  omega

theorem pad2_mem (n : ℕ) : ∀ c ∈ pad2 n, c ∈ digitsList := by
  rw [pad2]
  by_cases h : n < 10
  · rw [if_pos h]
    intro c hc
    rcases List.mem_cons.mp hc with hc | hc
    · rw [hc]; decide
    · exact natDigits_mem n c hc
  · rw [if_neg h]
    exact natDigits_mem n

theorem pad2_val (n : ℕ) : digitsVal (pad2 n) = n := by
  rw [pad2]
  by_cases h : n < 10
  · rw [if_pos h]
    have hz : digitsVal ('0' :: natDigits n) = digitsVal (natDigits n) := rfl
    rw [hz, digitsVal_natDigits]
  · rw [if_neg h]
    exact digitsVal_natDigits n

theorem pad2_ne_nil (n : ℕ) : pad2 n ≠ [] := by
  rw [pad2]
  by_cases h : n < 10
  · rw [if_pos h]; exact List.cons_ne_nil _ _
  · rw [if_neg h]; exact natDigits_ne_nil n

theorem pad2_len_ge2 (n : ℕ) : 2 ≤ (pad2 n).length := by
  rw [pad2]
  by_cases h : n < 10
  · rw [if_pos h, List.length_cons, natDigits_len1 n h]
  · rw [if_neg h]
    exact natDigits_len_ge2 n (by omega)

theorem pad2_len2 (n : ℕ) (h : n < 100) : (pad2 n).length = 2 := by
  rw [pad2]
  by_cases h10 : n < 10
  · rw [if_pos h10, List.length_cons, natDigits_len1 n h10]
  · rw [if_neg h10, natDigits_ge10 n (by omega), List.length_append,
      natDigits_len1 (n / 10) (by omega)]
    rfl

theorem pad2Z_natCast (n : ℕ) : pad2Z (n : ℤ) = pad2 n := by
  rw [pad2Z, if_neg (by omega)]
  norm_num

theorem pad2Z_ne_nil (z : ℤ) : pad2Z z ≠ [] := by
  rw [pad2Z]
  by_cases h : z < 0
  · rw [if_pos h]; exact List.cons_ne_nil _ _
  · rw [if_neg h]; exact pad2_ne_nil _

theorem pad2Z_mem (z : ℤ) : ∀ c ∈ pad2Z z, c = '-' ∨ c ∈ digitsList := by
  rw [pad2Z]
  by_cases h : z < 0
  · rw [if_pos h]
    intro c hc
    rcases List.mem_cons.mp hc with hc | hc
    · exact Or.inl hc
    · exact Or.inr (natDigits_mem _ c hc)
  · rw [if_neg h]
    intro c hc
    exact Or.inr (pad2_mem _ c hc)

theorem pad2Z_len_ge2 (z : ℤ) : 2 ≤ (pad2Z z).length := by
  rw [pad2Z]
  by_cases h : z < 0
  · rw [if_pos h, List.length_cons]
    have h1 : 0 < (natDigits (-z).toNat).length := List.length_pos.mpr (natDigits_ne_nil _)
    omega
  · rw [if_neg h]
    exact pad2_len_ge2 _

theorem colon_not_mem_pad2Z (z : ℤ) : ':' ∉ pad2Z z := by
  intro h
  rcases pad2Z_mem z ':' h with h | h
  · exact absurd h (by decide)
  · exact absurd h (by decide)

theorem qmark_not_mem_pad2Z (z : ℤ) : '?' ∉ pad2Z z := by
  intro h
  rcases pad2Z_mem z '?' h with h | h
  · exact absurd h (by decide)
  · exact absurd h (by decide)

/-! Lemmas about `pyStrip` and `pySplit`. -/

theorem pyStrip_eq_self (l : List Char) (h : ∀ c ∈ l, c.isWhitespace = false) :
    pyStrip l = l := by
  rw [pyStrip, dropWhile_eq_self_of_forall _ _ h, dropWhile_eq_self_of_forall,
    List.reverse_reverse]
  intro c hc
  exact h c (List.mem_reverse.mp hc)

theorem mem_of_mem_pyStrip {c : Char} {l : List Char} (h : c ∈ pyStrip l) : c ∈ l := by
  rw [pyStrip, List.mem_reverse] at h
  have h2 := (List.dropWhile_sublist _).subset h
  rw [List.mem_reverse] at h2
  exact (List.dropWhile_sublist _).subset h2

theorem pySplit_ne_nil (sep : Char) (l : List Char) : pySplit sep l ≠ [] := by
  cases l with
  | nil => exact List.cons_ne_nil _ _
  | cons c rest =>
    rw [pySplit]
    by_cases h : c = sep
    · rw [if_pos h]; exact List.cons_ne_nil _ _
    · rw [if_neg h]
      cases hsp : pySplit sep rest with
      | nil => exact List.cons_ne_nil _ _
      | cons p ps => exact List.cons_ne_nil _ _

theorem mem_of_mem_pySplit (sep : Char) :
    ∀ (l : List Char), ∀ part ∈ pySplit sep l, ∀ c ∈ part, c ∈ l := by
  intro l
  induction l with
  | nil =>
    intro part hp c hc
    rw [pySplit] at hp
    rw [List.mem_singleton] at hp
    subst hp
    cases hc
  | cons a rest ih =>
    intro part hp c hc
    rw [pySplit] at hp
    by_cases h : a = sep
    · rw [if_pos h] at hp
      rcases List.mem_cons.mp hp with hp | hp
      · subst hp; cases hc
      · exact List.mem_cons_of_mem a (ih part hp c hc)
    · rw [if_neg h] at hp
      cases hsp : pySplit sep rest with
      | nil => exact absurd hsp (pySplit_ne_nil sep rest)
      | cons p ps =>
        rw [hsp] at hp
        rcases List.mem_cons.mp hp with hp | hp
        · subst hp
          rcases List.mem_cons.mp hc with hc | hc
          · exact hc ▸ List.mem_cons_self a rest
          · have : p ∈ pySplit sep rest := hsp ▸ List.mem_cons_self p ps
            exact List.mem_cons_of_mem a (ih p this c hc)
        · have : part ∈ pySplit sep rest := hsp ▸ List.mem_cons_of_mem p hp
          exact List.mem_cons_of_mem a (ih part this c hc)

theorem pySplit_of_not_mem {sep : Char} :
    ∀ {l : List Char}, sep ∉ l → pySplit sep l = [l] := by
  intro l
  induction l with
  | nil => intro _; rfl
  | cons a rest ih =>
    intro h
    have ha : a ≠ sep := fun e => h (e ▸ List.mem_cons_self a rest)
    have hr : sep ∉ rest := fun e => h (List.mem_cons_of_mem a e)
    rw [pySplit, if_neg ha, ih hr]

theorem pySplit_append {sep : Char} (l2 : List Char) :
    ∀ {l1 : List Char}, sep ∉ l1 → pySplit sep (l1 ++ sep :: l2) = l1 :: pySplit sep l2 := by
  intro l1
  induction l1 with
  | nil =>
    intro _
    rw [List.nil_append, pySplit, if_pos rfl]
  | cons a t ih =>
    intro h
    have ha : a ≠ sep := fun e => h (e ▸ List.mem_cons_self a t)
    have ht : sep ∉ t := fun e => h (List.mem_cons_of_mem a e)
    rw [List.cons_append, pySplit, if_neg ha, ih ht]

/-! Lemmas about `parseFloat` and `pyInt`. -/

theorem rat_floor_eq (q : ℚ) : q.floor = ⌊q⌋ := rfl

theorem pyInt_nonneg (q : ℚ) (h : 0 ≤ q) : 0 ≤ pyInt q := by
  rw [pyInt, if_neg (not_lt.mpr h), rat_floor_eq]
  exact Int.floor_nonneg.mpr h

theorem pyInt_natCast (n : ℕ) : pyInt ((n : ℕ) : ℚ) = (n : ℤ) := by
  rw [pyInt, if_neg (not_lt.mpr (by positivity)), rat_floor_eq]
  exact Int.floor_natCast n

theorem splitSign_no_sign {l : List Char} (h : ∀ c ∈ l, c ∈ digitsList) :
    splitSign l = (1, l) := by
  cases l with
  | nil => rfl
  | cons c r =>
    have hc := digits_props c (h c (List.mem_cons_self c r))
    rw [splitSign, if_neg hc.2.2.2.1, if_neg hc.2.2.2.2.1]

theorem splitSign_sign_one {t : List Char} (h : '-' ∉ t) : (splitSign t).1 = 1 := by
  cases t with
  | nil => rfl
  | cons c r =>
    have hc : c ≠ '-' := fun e => h (e ▸ List.mem_cons_self c r)
    rw [splitSign, if_neg hc]
    by_cases hp : c = '+'
    · rw [if_pos hp]
    · rw [if_neg hp]

theorem parseFloat_digits (l : List Char) (hne : l ≠ []) (h : ∀ c ∈ l, c ∈ digitsList) :
    parseFloat l = some ((digitsVal l : ℚ)) := by
  have hws : ∀ c ∈ l, c.isWhitespace = false := fun c hc => (digits_props c (h c hc)).2.1
  have hstrip : pyStrip l = l := pyStrip_eq_self l hws
  have hsign : splitSign l = (1, l) := splitSign_no_sign h
  have hdig : ∀ c ∈ l, Char.isDigit c = true := fun c hc => (digits_props c (h c hc)).1
  have htake : l.takeWhile Char.isDigit = l := takeWhile_eq_self_of_forall _ l hdig
  have hdrop : l.dropWhile Char.isDigit = [] := dropWhile_eq_nil_of_forall _ l hdig
  simp only [parseFloat, hstrip, hsign, htake, hdrop]
  rw [if_neg hne, one_mul]

theorem parseFloat_nonneg {s : List Char} {q : ℚ} (h : '-' ∉ s)
    (hq : parseFloat s = some q) : 0 ≤ q := by
  have ht : '-' ∉ pyStrip s := fun e => h (mem_of_mem_pyStrip e)
  have hsign := splitSign_sign_one ht
  simp only [parseFloat] at hq
  rw [hsign] at hq
  split at hq
  · split at hq
    · exact absurd hq (by simp)
    · rw [Option.some_inj] at hq
      rw [← hq, one_mul]
      positivity
  · split at hq
    · rw [Option.some_inj] at hq
      rw [← hq, one_mul]
      positivity
    · exact absurd hq (by simp)
  · exact absurd hq (by simp)

/-! Lemmas about `parse_duration` (claims C6, C7, C8). -/

theorem parse_duration_nonneg (text : List Char) (h : '-' ∉ text) :
    0 ≤ parse_duration text := by
  rw [parse_duration]
  by_cases h0 : text = [] ∨ ':' ∉ text
  · rw [if_pos h0]
  · rw [if_neg h0]
    have hpart : ∀ part ∈ pySplit ':' (pyStrip text), '-' ∉ part := fun part hp he =>
      h (mem_of_mem_pyStrip (mem_of_mem_pySplit ':' (pyStrip text) part hp '-' he))
    rcases hsp : pySplit ':' (pyStrip text) with _ | ⟨a, _ | ⟨b, _ | ⟨c, _ | ⟨d, t⟩⟩⟩⟩
    · exact le_refl 0
    · exact le_refl 0
    · show (0 : ℤ) ≤ match parseFloat a, parseFloat b with
        | some m', some s' => pyInt (m' * 60 + s')
        | _, _ => (0 : ℤ)
      have hha : a ∈ pySplit ':' (pyStrip text) := by rw [hsp]; exact List.mem_cons_self _ _
      have hhb : b ∈ pySplit ':' (pyStrip text) := by rw [hsp]; simp
      rcases hfa : parseFloat a with _ | qa
      · exact le_refl 0
      · rcases hfb : parseFloat b with _ | qb
        · exact le_refl 0
        · have ha : 0 ≤ qa := parseFloat_nonneg (hpart a hha) hfa
          have hb : 0 ≤ qb := parseFloat_nonneg (hpart b hhb) hfb
          exact pyInt_nonneg _ (add_nonneg (mul_nonneg ha (by norm_num)) hb)
    · show (0 : ℤ) ≤ match parseFloat a, parseFloat b, parseFloat c with
        | some h', some m', some s' => pyInt (h' * 3600 + m' * 60 + s')
        | _, _, _ => (0 : ℤ)
      have hha : a ∈ pySplit ':' (pyStrip text) := by rw [hsp]; exact List.mem_cons_self _ _
      have hhb : b ∈ pySplit ':' (pyStrip text) := by rw [hsp]; simp
      have hhc : c ∈ pySplit ':' (pyStrip text) := by rw [hsp]; simp
      rcases hfa : parseFloat a with _ | qa
      · exact le_refl 0
      · rcases hfb : parseFloat b with _ | qb
        · exact le_refl 0
        · rcases hfc : parseFloat c with _ | qc
          · exact le_refl 0
          · have ha : 0 ≤ qa := parseFloat_nonneg (hpart a hha) hfa
            have hb : 0 ≤ qb := parseFloat_nonneg (hpart b hhb) hfb
            have hc : 0 ≤ qc := parseFloat_nonneg (hpart c hhc) hfc
            exact pyInt_nonneg _ (add_nonneg
              (add_nonneg (mul_nonneg ha (by norm_num)) (mul_nonneg hb (by norm_num))) hc)
    · exact le_refl 0

theorem parse_duration_eq_zero_of_not_wf (text : List Char)
    (h : wellFormedDuration text = false) : parse_duration text = 0 := by
  rw [parse_duration]
  rw [wellFormedDuration] at h
  by_cases h0 : text = [] ∨ ':' ∉ text
  · rw [if_pos h0]
  · rw [if_neg h0] at h ⊢
    rcases hsp : pySplit ':' (pyStrip text) with _ | ⟨a, _ | ⟨b, _ | ⟨c, _ | ⟨d, t⟩⟩⟩⟩
    · rfl
    · rfl
    · rw [hsp] at h
      replace h : ((parseFloat a).isSome && (parseFloat b).isSome) = false := h
      show (match parseFloat a, parseFloat b with
        | some m', some s' => pyInt (m' * 60 + s')
        | _, _ => (0 : ℤ)) = (0 : ℤ)
      rcases hfa : parseFloat a with _ | qa <;> rcases hfb : parseFloat b with _ | qb <;>
        first | rfl | simp [hfa, hfb] at h
    · rw [hsp] at h
      replace h : ((parseFloat a).isSome && (parseFloat b).isSome && (parseFloat c).isSome)
        = false := h
      show (match parseFloat a, parseFloat b, parseFloat c with
        | some h', some m', some s' => pyInt (h' * 3600 + m' * 60 + s')
        | _, _, _ => (0 : ℤ)) = (0 : ℤ)
      rcases hfa : parseFloat a with _ | qa <;> rcases hfb : parseFloat b with _ | qb <;>
        rcases hfc : parseFloat c with _ | qc <;> first | rfl | simp [hfa, hfb, hfc] at h
    · rfl

/-- Claim C6 (confirmed).  `parse_duration` satisfies the four stated test
vectors: `"1:02:03" ↦ 3723`, `"2:05" ↦ 125`, `"" ↦ 0`, `"garbage" ↦ 0`. -/
theorem claim_C6_theorem :
    parse_duration ("1:02:03".toList) = 3723 ∧
    parse_duration ("2:05".toList) = 125 ∧
    parse_duration ("".toList) = 0 ∧
    parse_duration ("garbage".toList) = 0 := by
  refine ⟨?_, ?_, ?_, ?_⟩ <;> with_unfolding_all decide

/-- Claim C7 (counterexample to the claim as stated).  `parse_duration` does
not always return a non-negative number: Python's `float` accepts a leading
minus sign, so the time text `"-5:00"` parses to the negative total `-300`. -/
theorem claim_C7_counterexample :
    parse_duration ("-5:00".toList) = -300 ∧ parse_duration ("-5:00".toList) < 0 := by
  constructor <;> with_unfolding_all decide

/-- Claim C7 (amended).  `parse_duration` always returns an integer; that
integer is non-negative whenever the input contains no minus sign (in
particular for every time marker made of digits and colons), and it is 0
whenever the text does not parse as `H:MM:SS` or `MM:SS` (that is, whenever
the stripped text does not split on `':'` into exactly three or exactly two
float-parsable components). -/
theorem claim_C7_theorem :
    (∀ text : List Char, '-' ∉ text → 0 ≤ parse_duration text) ∧
    (∀ text : List Char, wellFormedDuration text = false → parse_duration text = 0) := by
  exact ⟨parse_duration_nonneg, parse_duration_eq_zero_of_not_wf⟩

/-- Claim C7 witness: the amended theorem applied at the concrete inputs
`"2:05"` (no minus sign, non-negative result) and `"garbage"` (not
well-formed, result 0). -/
theorem claim_C7_witness :
    ('-' ∉ ("2:05".toList) ∧ 0 ≤ parse_duration ("2:05".toList)) ∧
    (wellFormedDuration ("garbage".toList) = false ∧
      parse_duration ("garbage".toList) = 0) := by
  constructor
  · exact ⟨by decide, claim_C7_theorem.1 ("2:05".toList) (by decide)⟩
  · exact ⟨by decide, claim_C7_theorem.2 ("garbage".toList) (by decide)⟩

theorem int_fdiv_natCast (n m : ℕ) : Int.fdiv (n : ℤ) (m : ℤ) = ((n / m : ℕ) : ℤ) :=
  (Int.ofNat_fdiv n m).symm

theorem int_fmod_natCast (n m : ℕ) : Int.fmod (n : ℤ) (m : ℤ) = ((n % m : ℕ) : ℤ) :=
  (Int.ofNat_fmod n m).symm

theorem int_fdiv_sixty (n : ℕ) : Int.fdiv (n : ℤ) 60 = ((n / 60 : ℕ) : ℤ) := by
  have h : ((60 : ℕ) : ℤ) = (60 : ℤ) := by norm_num
  rw [← h, int_fdiv_natCast]

theorem int_fmod_sixty (n : ℕ) : Int.fmod (n : ℤ) 60 = ((n % 60 : ℕ) : ℤ) := by
  have h : ((60 : ℕ) : ℤ) = (60 : ℤ) := by norm_num
  rw [← h, int_fmod_natCast]

/-- Claim C8 (confirmed).  Round-trip: for every non-negative number of
seconds `n`, parsing the minutes:seconds rendering that the program produces
for `n` (line 75's `duration_fmt`) yields `n` back.  For `n = 0` the
rendering is the unknown marker `"?:??"`, which parses back to 0; for
`n ≠ 0` the rendering `MM:SS` (total minutes, zero-padded) parses back to
`(n / 60) * 60 + n % 60 = n`. -/
theorem claim_C8_theorem (n : ℕ) : parse_duration (duration_fmt (n : ℤ)) = (n : ℤ) := by
  rcases Nat.eq_zero_or_pos n with h0 | hpos
  · subst h0
    simp only [Nat.cast_zero]
    with_unfolding_all decide
  · have hne : (n : ℤ) ≠ 0 := by
      simp only [ne_eq, Nat.cast_eq_zero]
      omega
    rw [duration_fmt, if_pos hne, int_fdiv_sixty, int_fmod_sixty,
      pad2Z_natCast, pad2Z_natCast]
    have htext_ne : pad2 (n / 60) ++ ':' :: pad2 (n % 60) ≠ [] := by
      intro habs
      exact pad2_ne_nil (n / 60) (List.append_eq_nil.mp habs).1
    have hcolon : ':' ∈ pad2 (n / 60) ++ ':' :: pad2 (n % 60) :=
      List.mem_append_right _ (List.mem_cons_self _ _)
    rw [parse_duration, if_neg (fun hor => Or.elim hor htext_ne fun hni => hni hcolon)]
    have hstrip : pyStrip (pad2 (n / 60) ++ ':' :: pad2 (n % 60))
        = pad2 (n / 60) ++ ':' :: pad2 (n % 60) := by
      apply pyStrip_eq_self
      intro c hc
      rcases List.mem_append.mp hc with hc | hc
      · exact (digits_props c (pad2_mem (n / 60) c hc)).2.1
      · rcases List.mem_cons.mp hc with hc | hc
        · rw [hc]; decide
        · exact (digits_props c (pad2_mem (n % 60) c hc)).2.1
    rw [hstrip]
    have hnc_a : ':' ∉ pad2 (n / 60) := fun hc =>
      (digits_props ':' (pad2_mem (n / 60) ':' hc)).2.2.1 rfl
    have hnc_b : ':' ∉ pad2 (n % 60) := fun hc =>
      (digits_props ':' (pad2_mem (n % 60) ':' hc)).2.2.1 rfl
    rw [pySplit_append (pad2 (n % 60)) hnc_a, pySplit_of_not_mem hnc_b]
    show (match parseFloat (pad2 (n / 60)), parseFloat (pad2 (n % 60)) with
      | some m', some s' => pyInt (m' * 60 + s')
      | _, _ => (0 : ℤ)) = (n : ℤ)
    rw [parseFloat_digits (pad2 (n / 60)) (pad2_ne_nil _) (pad2_mem _),
      parseFloat_digits (pad2 (n % 60)) (pad2_ne_nil _) (pad2_mem _)]
    show pyInt ((digitsVal (pad2 (n / 60)) : ℚ) * 60 + (digitsVal (pad2 (n % 60)) : ℚ))
      = (n : ℤ)
    rw [pad2_val, pad2_val]
    have hq : ((n / 60 : ℕ) : ℚ) * 60 + ((n % 60 : ℕ) : ℚ) = ((n / 60 * 60 + n % 60 : ℕ) : ℚ) := by
      push_cast
      ring
    rw [hq, pyInt_natCast]
    have : n / 60 * 60 + n % 60 = n := by omega
    rw [this]

/-! Lemmas about `extract_metadata` (claims C3, C9, C10). -/

theorem extract_metadata_found (url : List Char) (bh bg : Page) :
    extract_metadata url (HttpStep.resp 200 bh) (HttpStep.resp 200 bg) =
      { url := url, code := some (urlLastSegment url),
        title := some (match bg.titleTag with
          | some t => pyStrip (replaceAll instaudioSuffix t)
          | none => unknownStr),
        duration := some (duration_fmt (parse_duration (bg.timeTag.getD []))),
        duration_seconds := some (parse_duration (bg.timeTag.getD [])),
        listens := some bg.listens, downloads := some bg.downloads,
        status := RStatus.code 200, error := none } := rfl

/-- Claim C3 (amended).  `extract_metadata` is a total function of the two
request outcomes (it never raises past its boundary): when either request
raises, the result has status `"ERROR"` and its error field is the
exception's message truncated to at most 100 characters — which is empty
exactly when the message is empty, and human-readable to the extent the
message is. -/
theorem claim_C3_theorem :
    ∀ (url msg : List Char) (g : HttpStep) (bh : Page),
      ((extract_metadata url (HttpStep.exn msg) g).status = RStatus.error ∧
       (extract_metadata url (HttpStep.exn msg) g).error = some (msg.take 100) ∧
       (msg.take 100).length ≤ 100) ∧
      ((extract_metadata url (HttpStep.resp 200 bh) (HttpStep.exn msg)).status
          = RStatus.error ∧
       (extract_metadata url (HttpStep.resp 200 bh) (HttpStep.exn msg)).error
          = some (msg.take 100) ∧
       (msg.take 100).length ≤ 100) := by
  intro url msg g bh
  refine ⟨⟨rfl, rfl, ?_⟩, rfl, rfl, ?_⟩ <;>
    · rw [List.length_take]
      exact min_le_left _ _

/-- Claim C3 (counterexample to the claim as stated).  The error field is
not always non-empty: an exception whose message is empty (e.g. a bare
`requests.exceptions.ConnectionError()`) yields `str(e)[:100] = ""`. -/
theorem claim_C3_counterexample :
    ¬ ∃ e : List Char,
      (extract_metadata ("u".toList) (HttpStep.exn []) (HttpStep.exn [])).error = some e ∧
        e ≠ [] := by
  rintro ⟨e, he, hne⟩
  have hval : (extract_metadata ("u".toList) (HttpStep.exn []) (HttpStep.exn [])).error
      = some [] := rfl
  rw [hval, Option.some_inj] at he
  exact hne he.symm

/-- Claim C9 (amended).  For every found resource the extracted title is the
document's title text with EVERY occurrence of `" - Instaudio"` removed
(`str.replace` is not anchored to the end) and surrounding whitespace
trimmed; it is `"Unknown"` exactly when the title element is absent — a
present-but-empty title yields the empty string, not `"Unknown"`. -/
theorem claim_C9_theorem :
    ∀ (url : List Char) (bh bg : Page),
      (extract_metadata url (HttpStep.resp 200 bh) (HttpStep.resp 200 bg)).title
        = some (match bg.titleTag with
            | some t => pyStrip (replaceAll instaudioSuffix t)
            | none => unknownStr) := by
  intro url bh bg
  rw [extract_metadata_found]

/-- Claim C9 (counterexample to the claim as stated).  The spec's title rule
(`specTitleRule`: trailing suffix stripped, trimmed, Unknown when empty or
absent) disagrees with the code on two concrete pages: a present-but-empty
title gives `""` instead of `"Unknown"`, and a non-trailing occurrence of
`" - Instaudio"` is removed even though it is not a trailing suffix. -/
theorem claim_C9_counterexample :
    ((extract_metadata ("u".toList) (HttpStep.resp 200 ⟨some [], none, [], []⟩)
        (HttpStep.resp 200 ⟨some [], none, [], []⟩)).title
      ≠ some (specTitleRule (some []))) ∧
    ((extract_metadata ("u".toList)
        (HttpStep.resp 200 ⟨some ("A - Instaudio B".toList), none, [], []⟩)
        (HttpStep.resp 200 ⟨some ("A - Instaudio B".toList), none, [], []⟩)).title
      ≠ some (specTitleRule (some ("A - Instaudio B".toList)))) := by
  constructor <;> with_unfolding_all decide

theorem duration_fmt_eq_qmarks_iff (z : ℤ) :
    duration_fmt z = ['?', ':', '?', '?'] ↔ z = 0 := by
  constructor
  · intro h
    by_contra hz
    rw [duration_fmt, if_pos hz] at h
    rcases hpz : pad2Z (Int.fdiv z 60) with _ | ⟨c, rest⟩
    · exact pad2Z_ne_nil _ hpz
    · rw [hpz, List.cons_append] at h
      injection h with h1 _
      have hmem : '?' ∈ pad2Z (Int.fdiv z 60) := by
        rw [hpz, ← h1]
        exact List.mem_cons_self c rest
      exact qmark_not_mem_pad2Z _ hmem
  · intro h
    rw [duration_fmt, if_neg (by simp [h])]

theorem duration_fmt_count_colon (z : ℤ) (hz : z ≠ 0) :
    (duration_fmt z).count ':' = 1 := by
  rw [duration_fmt, if_pos hz, List.count_append, List.count_cons_self,
    List.count_eq_zero.mpr (colon_not_mem_pad2Z (Int.fdiv z 60)),
    List.count_eq_zero.mpr (colon_not_mem_pad2Z (Int.fmod z 60))]

/-- Claim C10 (confirmed).  For every found (status 200) result the
`duration` field is `duration_fmt` applied to `duration_seconds`, and that
rendering is the unknown marker `"?:??"` exactly when `duration_seconds` is
0 (so a time marker that parses to zero seconds — e.g. `"0:00"` — is also
rendered `"?:??"`, never `"00:00"`); otherwise it is the total-minutes and
seconds parts joined by a single `':'` (never an `H:MM:SS` form), each part
produced by the `02d` format: the seconds part exactly two characters, the
minutes part at least two characters (total minutes may exceed 59). -/
theorem claim_C10_theorem :
    ∀ (url : List Char) (bh bg : Page),
      ((extract_metadata url (HttpStep.resp 200 bh) (HttpStep.resp 200 bg)).duration_seconds
         = some (parse_duration (bg.timeTag.getD []))) ∧
      ((extract_metadata url (HttpStep.resp 200 bh) (HttpStep.resp 200 bg)).duration
         = some (duration_fmt (parse_duration (bg.timeTag.getD [])))) ∧
      (∀ z : ℤ, (duration_fmt z = ['?', ':', '?', '?'] ↔ z = 0) ∧
        (z = 0 ∨ (duration_fmt z = pad2Z (Int.fdiv z 60) ++ ':' :: pad2Z (Int.fmod z 60) ∧
          2 ≤ (pad2Z (Int.fdiv z 60)).length ∧ (pad2Z (Int.fmod z 60)).length = 2 ∧
          (duration_fmt z).count ':' = 1))) := by
  intro url bh bg
  refine ⟨rfl, rfl, ?_⟩
  intro z
  refine ⟨duration_fmt_eq_qmarks_iff z, ?_⟩
  by_cases hz : z = 0
  · exact Or.inl hz
  · refine Or.inr ⟨?_, pad2Z_len_ge2 _, ?_, duration_fmt_count_colon z hz⟩
    · rw [duration_fmt, if_pos hz]
    · have h0 : 0 ≤ Int.fmod z 60 := Int.fmod_nonneg' z (by norm_num)
      have h60 : Int.fmod z 60 < 60 := Int.fmod_lt_of_pos z (by norm_num)
      rw [pad2Z, if_neg (not_lt.mpr h0)]
      apply pad2_len2
      omega

/-! Lemmas about the batching loop of `main` (claims C2, C4). -/

theorem stepCode_fold_saved {R : Type} (B : ℕ) (probe : List Char → R) (hB : 0 < B) :
    ∀ (codes urls : List (List Char)) (s : LoopState R),
      s.batch_results = [] → urls.length < B →
      ((codes.foldl (stepCode B probe) (urls, s)).2.saved).flatten
        = s.saved.flatten
          ++ ((urls ++ codes).map probe).take (B * ((urls.length + codes.length) / B)) := by
  intro codes
  induction codes with
  | nil =>
    intro urls s _ hu
    rw [List.foldl_nil, List.length_nil, List.append_nil, Nat.add_zero,
      Nat.div_eq_of_lt hu, Nat.mul_zero, List.take_zero, List.append_nil]
  | cons c cs ih =>
    intro urls s hbr hu
    rw [List.foldl_cons]
    have hurls : (urls ++ [c]).length = urls.length + 1 := by simp
    by_cases hflush : B ≤ (urls ++ [c]).length
    · have hstep : stepCode B probe (urls, s) c
          = ([], ⟨[], s.saved ++ [s.batch_results ++ (urls ++ [c]).map probe]⟩) := by
        simp only [stepCode]
        rw [if_pos hflush]
      rw [hstep, hbr]
      have hIH := ih [] ⟨[], s.saved ++ [[] ++ (urls ++ [c]).map probe]⟩ rfl hB
      rw [hIH]
      simp only [List.nil_append, List.length_nil, Nat.zero_add]
      rw [List.flatten_append]
      have hjoin : ([(urls ++ [c]).map probe] : List (List R)).flatten
          = (urls ++ [c]).map probe := by simp
      rw [hjoin]
      have hl : urls.length + 1 = B := by omega
      have hsplit : urls ++ c :: cs = (urls ++ [c]) ++ cs := by
        rw [List.append_assoc, List.singleton_append]
      have hmapsplit : List.map probe ((urls ++ [c]) ++ cs)
          = List.map probe (urls ++ [c]) ++ List.map probe cs := List.map_append _ _ _
      simp only [List.length_cons]
      rw [hsplit, hmapsplit]
      have hlenmap : ((urls ++ [c]).map probe).length = B := by
        rw [List.length_map, hurls, hl]
      have harith : urls.length + (cs.length + 1) = cs.length + B := by omega
      rw [harith, Nat.add_div_right _ hB]
      have harith2 : B * (cs.length / B + 1)
          = ((urls ++ [c]).map probe).length + B * (cs.length / B) := by
        rw [hlenmap]
        ring
      rw [harith2, List.take_append, List.append_assoc]
    · have hstep : stepCode B probe (urls, s) c = (urls ++ [c], s) := by
        simp only [stepCode]
        rw [if_neg hflush]
      rw [hstep]
      have hu' : (urls ++ [c]).length < B := by omega
      have hIH := ih (urls ++ [c]) s hbr hu'
      rw [hIH, hurls]
      have hsplit : (urls ++ [c]) ++ cs = urls ++ c :: cs := by
        rw [List.append_assoc, List.singleton_append]
      rw [hsplit]
      simp only [List.length_cons]
      have harith : urls.length + 1 + cs.length = urls.length + (cs.length + 1) := by omega
      rw [harith]

/-- Claim C2 (amended).  When an operator interrupt strikes mid-scan — after
any number of completed full batches plus any list `pend` of probe results
that have completed and been appended to the in-memory buffer since the
last flush — the rows on disk are exactly the probes of the completed full
batches (the first `B * (k / B)` of the `k` codes processed so far): the
`KeyboardInterrupt` handler of lines 203-205 exits without flushing, so the
buffered results `pend` (and any unflushed final-batch leftover) are NOT
written; they are lost, contrary to the claim as stated. -/
theorem claim_C2_theorem {R : Type} (B : ℕ) (probe : List Char → R)
    (codes : List (List Char)) (pend : List R) (hB : 0 < B) :
    (fileRowsAtInterrupt (codes.foldl (stepCode B probe) ([], ⟨[], []⟩)).2 pend).flatten
      = (codes.take (B * (codes.length / B))).map probe := by
  have h := stepCode_fold_saved B probe hB codes [] ⟨[], []⟩ rfl hB
  simp only [List.nil_append, List.length_nil, Nat.zero_add] at h
  have hfile : fileRowsAtInterrupt (codes.foldl (stepCode B probe) ([], ⟨[], []⟩)).2 pend
      = (codes.foldl (stepCode B probe) ([], ⟨[], []⟩)).2.saved := rfl
  rw [hfile, h, List.map_take]
  rfl

/-- Claim C2 witness: the amended theorem applied with batch size 2, three
processed codes and one completed-but-unflushed result; exactly the first
full batch (2 of the 3 probes) is on disk. -/
theorem claim_C2_witness :
    0 < 2 ∧
    (fileRowsAtInterrupt (([['a'], ['b'], ['c']] : List (List Char)).foldl
        (stepCode 2 (fun c => c)) ([], ⟨[], []⟩)).2 [['x']]).flatten
      = (([['a'], ['b'], ['c']] : List (List Char)).take
          (2 * (([['a'], ['b'], ['c']] : List (List Char)).length / 2))).map (fun c => c) :=
  ⟨by decide, claim_C2_theorem 2 (fun c => c) [['a'], ['b'], ['c']] [['x']] (by decide)⟩

/-- Claim C2 (counterexample to the claim as stated).  A probe result that
has completed and been accumulated in the in-memory buffer (`['x']`, sitting
in `batch_results` at the moment of the interrupt) is absent from the rows
on disk after the handler runs: the completed-but-unflushed result is
lost. -/
theorem claim_C2_counterexample :
    (['x'] ∈ (interruptState (⟨[], []⟩ : LoopState (List Char)) [['x']]).batch_results) ∧
    (fileRowsAtInterrupt (⟨[], []⟩ : LoopState (List Char)) [['x']]).flatten = [] ∧
    (['x'] ∉ (fileRowsAtInterrupt (⟨[], []⟩ : LoopState (List Char)) [['x']]).flatten) := by
  refine ⟨?_, ?_, ?_⟩ <;> decide

/-- Claim C4 (code bug, demonstrated at batch size 2).  The final-batch path
of lines 184-192 calls `save_results(batch_results)` but never
`batch_results.clear()`, so when a second generator follows (the default
configuration scans 3-digit then 4-digit codes), the first generator's
final partial batch stays in the buffer: the next full batch pushes the
buffer to `partial + BATCH_SIZE > BATCH_SIZE` rows, and that flush writes
the partial batch's rows a second time.  With `B = 2`, generators
`[[a,b,c],[d,e]]`: the three `save_results` calls write 2, 1 and 3 rows
(the third exceeds the batch size), and code `c`'s row is written twice. -/
theorem claim_C4_theorem :
    ((mainRun 2 (fun c => c) [[['a'], ['b'], ['c']], [['d'], ['e']]]).saved.map List.length
        = [2, 1, 3]) ∧
    ((mainRun 2 (fun c => c) [[['a'], ['b'], ['c']], [['d'], ['e']]]).saved.all
        (fun fl => decide (fl.length ≤ 2)) = false) ∧
    ((mainRun 2 (fun c => c) [[['a'], ['b'], ['c']], [['d'], ['e']]]).saved.flatten.count ['c']
        = 2) := by
  refine ⟨?_, ?_, ?_⟩ <;> decide
